import Mathlib

/-!
Verification of the scenario-driven simulation engines of the BareMetal
educational visualizer: the memory-lifecycle state reconstructor
(`reconstructState` in `src/pages/labs/MemoryLab.tsx`), the navigation store
(`useLabStore.ts`), and the two concurrency scheduler loops (the
scenario-driven `simulate` in the concurrency page and the legacy
`simulate` in `ConcurrencyLab.tsx`).

Every definition below is a direct shallow embedding of the TypeScript
source.  JavaScript numbers that only ever hold non-negative integers are
modelled as `Nat`; values produced by `Math.max(0, n - 1)` style clamping
are modelled as `Int` with an explicit `max`; `Math.round` over rationals
is modelled as `jsRound`.  JavaScript string truthiness (empty string is
falsy) is modelled by `jsTruthy`.
-/

/-- The `Language` union of `useLabStore.ts` (named `Lang` here because Mathlib already defines `Language`):
`cpp | python | javascript | go | rust`. -/
inductive Lang where
  | cpp | python | javascript | go | rust
deriving DecidableEq, Repr

/-- The `MemoryActionType` union of `data/memoryScenarios.ts` (closed
enumeration of step actions). -/
inductive MemAction where
  | allocateHeap
  | allocateStack
  | free
  | leak
  | transferOwnership
  | addReference
  | removeReference
  | gcMark
  | gcSweep
  | scopeEnter
  | scopeExit
deriving DecidableEq, Repr

/-- The string value each `MemoryActionType` member has in the source
(used when synthesizing a fallback block id). -/
def MemAction.label : MemAction → String
  | .allocateHeap => "allocate-heap"
  | .allocateStack => "allocate-stack"
  | .free => "free"
  | .leak => "leak"
  | .transferOwnership => "transfer-ownership"
  | .addReference => "add-reference"
  | .removeReference => "remove-reference"
  | .gcMark => "gc-mark"
  | .gcSweep => "gc-sweep"
  | .scopeEnter => "scope-enter"
  | .scopeExit => "scope-exit"

/-- The `MemoryStep` interface of `data/memoryScenarios.ts`.  The display
fields `code` and `explanation` play no role in the replay semantics and
are omitted. -/
structure MemoryStep where
  lineNumber : Nat
  action : MemAction
  blockId : Option String := none
  blockSize : Option Nat := none
  owner : Option String := none
  targetOwner : Option String := none
  pointsTo : Option String := none
deriving DecidableEq, Repr

/-- The `status` union of `MemoryBlock` in `useLabStore.ts`. -/
inductive BlockStatus where
  | allocated | freed | leaked | garbage
deriving DecidableEq, Repr

/-- The `type` union of `MemoryBlock` in `useLabStore.ts`. -/
inductive BlockType where
  | heap | stack
deriving DecidableEq, Repr

/-- The `MemoryBlock` interface of `useLabStore.ts` (with the `pointsTo`
field written by `reconstructState`).  `refCount` is a JavaScript number;
it is modelled as `Int` so that the clamping `Math.max(0, refCount - 1)`
in the source is meaningful rather than a typing artifact. -/
structure MemoryBlock where
  id : String
  address : String
  size : Nat
  status : BlockStatus
  type : BlockType
  owner : Option String := none
  pointsTo : Option String := none
  refCount : Option Int := none
deriving DecidableEq, Repr

/-- JavaScript truthiness of an optional string: `undefined` and the empty
string are falsy.  Models the guards `if (step.blockId)` and the fallback
`step.blockId || ...` in `reconstructState`. -/
def jsTruthy : Option String → Option String
  | some s => if s = "" then none else some s
  | none => none

/-- Uppercase hexadecimal rendering of a natural number, as produced by
`n.toString(16).toUpperCase()` in JavaScript. -/
def hexUpper (n : Nat) : String :=
  String.mk ((Nat.toDigits 16 n).map Char.toUpper)

/-- The synthetic heap address of the block allocated at step index `i`:
the source computes `0x` + `(0x70000000 + i * 0x1000).toString(16).toUpperCase()`. -/
def heapAddr (i : Nat) : String :=
  "0x" ++ hexUpper (0x70000000 + i * 0x1000)

/-- The synthetic stack address of the block allocated at step index `i`:
the source computes `0x` + `(0x04000000 + i * 0x100).toString(16).toUpperCase()`. -/
def stackAddr (i : Nat) : String :=
  "0x" ++ hexUpper (0x04000000 + i * 0x100)

/-- The fallback block id `stable-id-i-action` synthesized in
`reconstructState` when a step carries no (truthy) `blockId`. -/
def synthBlockId (i : Nat) (a : MemAction) : String :=
  "stable-id-" ++ toString i ++ "-" ++ a.label

/-- The id under which step `i` allocates a block:
`step.blockId || stable-id-i-action`. -/
def blockIdOf (i : Nat) (step : MemoryStep) : String :=
  match jsTruthy step.blockId with
  | some s => s
  | none => synthBlockId i step.action

/-- The block pushed by the `allocate-heap` case of `reconstructState`.
`step.blockSize || 64` defaults both a missing and a zero `blockSize` to
64 (JavaScript falsiness of 0); `refCount` is initialized to 1 exactly
when the active language is `python`. -/
def newHeapBlock (language : Lang) (i : Nat) (step : MemoryStep) : MemoryBlock :=
  { id := blockIdOf i step
    address := heapAddr i
    size := match step.blockSize with
            | some n => if n = 0 then 64 else n
            | none => 64
    status := .allocated
    type := .heap
    owner := step.owner
    pointsTo := step.pointsTo
    refCount := if language = .python then some 1 else none }

/-- The block pushed by the `allocate-stack` case of `reconstructState`.
`step.blockSize || 32` defaults a missing (or zero) `blockSize` to 32;
no `refCount` field is written. -/
def newStackBlock (i : Nat) (step : MemoryStep) : MemoryBlock :=
  { id := blockIdOf i step
    address := stackAddr i
    size := match step.blockSize with
            | some n => if n = 0 then 32 else n
            | none => 32
    status := .allocated
    type := .stack
    owner := step.owner
    pointsTo := step.pointsTo
    refCount := none }

/-- One iteration of the replay loop of `reconstructState`
(`MemoryLab.tsx`): the `switch (step.action)` over the working set.
Each case is a direct transcription:
* `allocate-heap` / `allocate-stack` push a new block;
* `free` filters out the matching id;
* `leak`, `transfer-ownership`, `add-reference`, `gc-mark` map over the
  working set, touching only the matching block;
* `remove-reference` decrements with `Math.max(0, refCount - 1)` and then
  filters out every block whose defined `refCount` is not positive;
* `gc-sweep` filters out every block with status `garbage`;
* `scope-enter` / `scope-exit` have no case in the switch and fall
  through unchanged. -/
def applyStep (language : Lang) (i : Nat) (step : MemoryStep)
    (blocks : List MemoryBlock) : List MemoryBlock :=
  match step.action with
  | .allocateHeap => blocks ++ [newHeapBlock language i step]
  | .allocateStack => blocks ++ [newStackBlock i step]
  | .free =>
      match jsTruthy step.blockId with
      | some bid => blocks.filter (fun b => b.id ≠ bid)
      | none => blocks
  | .leak =>
      match jsTruthy step.blockId with
      | some bid => blocks.map (fun b => if b.id = bid then { b with status := .leaked } else b)
      | none => blocks
  | .transferOwnership =>
      match jsTruthy step.blockId, jsTruthy step.targetOwner with
      | some bid, some tgt =>
          blocks.map (fun b => if b.id = bid then { b with owner := some tgt } else b)
      | _, _ => blocks
  | .addReference =>
      match jsTruthy step.blockId with
      | some bid =>
          blocks.map (fun b =>
            if b.id = bid then
              match b.refCount with
              | some rc => { b with refCount := some (rc + 1) }
              | none => b
            else b)
      | none => blocks
  | .removeReference =>
      match jsTruthy step.blockId with
      | some bid =>
          (blocks.map (fun b =>
            if b.id = bid then
              match b.refCount with
              | some rc => { b with refCount := some (max 0 (rc - 1)) }
              | none => b
            else b)).filter (fun b =>
              match b.refCount with
              | none => true
              | some rc => 0 < rc)
      | none => blocks
  | .gcMark =>
      match jsTruthy step.blockId with
      | some bid => blocks.map (fun b => if b.id = bid then { b with status := .garbage } else b)
      | none => blocks
  | .gcSweep => blocks.filter (fun b => b.status ≠ .garbage)
  | .scopeEnter => blocks
  | .scopeExit => blocks

/-- Applies the step at index `i` of the step list, when it exists.  In the
source the loop index never exceeds the list length on any reachable call
(an out-of-range access would fault); an out-of-range index is modelled as
a no-op and every theorem about a specific index stays in range. -/
def applyStepAt (language : Lang) (steps : List MemoryStep) (i : Nat)
    (blocks : List MemoryBlock) : List MemoryBlock :=
  match steps.get? i with
  | some st => applyStep language i st blocks
  | none => blocks

/-- The pure fold at the heart of `reconstructState` (`MemoryLab.tsx`):
starting from the empty working set, replay steps `0 .. toStepIndex`
inclusive (`for (let i = 0; i <= toStepIndex; i++)`). -/
def reconstructState (language : Lang) (steps : List MemoryStep) :
    Nat → List MemoryBlock
  | 0 => applyStepAt language steps 0 []
  | t + 1 => applyStepAt language steps (t + 1) (reconstructState language steps t)

/-- The full effect of one call of `reconstructState` on the published
`memoryBlocks` store state: when the step list is empty the function
returns early and the previous blocks stay published; otherwise the fold
result replaces them via `setMemoryBlocks`. -/
def reconstructEffect (language : Lang) (steps : List MemoryStep)
    (toStepIndex : Nat) (prevBlocks : List MemoryBlock) : List MemoryBlock :=
  if steps.isEmpty then prevBlocks else reconstructState language steps toStepIndex

/-- The published `memoryBlocks` state after a whole history of
`reconstructState` calls (one per visited target index), starting from an
arbitrary previously published state. -/
def runHistory (language : Lang) (steps : List MemoryStep)
    (history : List Nat) (prevBlocks : List MemoryBlock) : List MemoryBlock :=
  history.foldl (fun acc t => reconstructEffect language steps t acc) prevBlocks

/-- The step list of the `safety` scenario for C++ in
`data/memoryScenarios.ts`: allocate a heap block and a stack pointer to
it, leak the heap block, then free the stack pointer. -/
def cppSafetySteps : List MemoryStep :=
  [ { lineNumber := 3, action := .allocateHeap, blockId := some "cpp-leak-heap",
      blockSize := some 200 },
    { lineNumber := 3, action := .allocateStack, blockId := some "cpp-leak-stack",
      owner := some "data", pointsTo := some "cpp-leak-heap", blockSize := some 8 },
    { lineNumber := 6, action := .leak, blockId := some "cpp-leak-heap" },
    { lineNumber := 6, action := .free, blockId := some "cpp-leak-stack" } ]

/-- The task `status` union of `useLabStore.ts`:
`queued | running | blocked | completed`. -/
inductive TaskStatus where
  | queued | running | blocked | completed
deriving DecidableEq, Repr

/-- Whether a status is `running` (the comparisons
`t.status === "running"` in both simulation loops). -/
def TaskStatus.isRunning : TaskStatus → Bool
  | .running => true
  | _ => false

/-- The `Task` interface (named `SimTask` here because Lean core already defines `Task`) of `useLabStore.ts`: a runtime task instance.
Durations and times are milliseconds (non-negative JavaScript numbers). -/
structure SimTask where
  id : String
  name : String
  status : TaskStatus
  lane : Nat
  duration : Nat
  startTime : Option Nat := none
deriving DecidableEq, Repr

/-- The `ConcurrencyModel` union of `data/concurrencyScenarios.ts`:
`event-loop | goroutines | threads | async-await | actor | multiprocessing`. -/
inductive ConcurrencyModel where
  | eventLoop | goroutines | threads | asyncAwait | actor | multiprocessing
deriving DecidableEq, Repr

/-- The `ConcurrencyMode` union of the legacy `ConcurrencyLab.tsx`:
`event-loop | goroutines | threads`. -/
inductive ConcurrencyMode where
  | eventLoop | goroutines | threads
deriving DecidableEq, Repr

/-- The completion test `elapsed - task.startTime >= task.duration` of both
simulation loops, computed over the integers as in JavaScript. -/
def taskDue (elapsed startTime duration : Nat) : Bool :=
  (duration : Int) ≤ (elapsed : Int) - (startTime : Int)

/-- The effect of one tick of the scenario-driven `simulate` loop (the
concurrency page that reads fresh store state with
`useLabStore.getState().tasks`) on a single task.  All reads - the task
fields and the admission scans over `currentTasks` - come from the
`snapshot` taken at the start of the tick, while each `updateTask` writes
through to the store, so the net store effect of a tick is this function
mapped over the snapshot (task ids are distinct: they are generated as
`task-0`, `task-1`, ...).  Admission:
* `event-loop`: start iff no snapshot task is running;
* `goroutines`: always start;
* every other model: start iff no snapshot task is running on the same
  lane.
A running task with a defined `startTime` completes once
`elapsed - startTime >= duration`; the `blocksEventLoop` branch of the
source mutates nothing. -/
def homeCanStart (model : ConcurrencyModel) (snapshot : List SimTask)
    (task : SimTask) : Bool :=
  match model with
  | .eventLoop => !(snapshot.any fun t => t.status.isRunning)
  | .goroutines => true
  | _ => !(snapshot.any fun t => decide (t.lane = task.lane) && t.status.isRunning)

def homeTickTask (model : ConcurrencyModel) (elapsed : Nat)
    (snapshot : List SimTask) (task : SimTask) : SimTask :=
  match task.status with
  | .queued =>
      if homeCanStart model snapshot task then
        { task with status := .running, startTime := some elapsed }
      else task
  | .running =>
      match task.startTime with
      | some st => if taskDue elapsed st task.duration then { task with status := .completed } else task
      | none => task
  | _ => task

/-- The store state after one tick of the scenario-driven `simulate` loop:
`homeTickTask` mapped over the pre-tick snapshot. -/
def homeTick (model : ConcurrencyModel) (elapsed : Nat) (tasks : List SimTask) :
    List SimTask :=
  tasks.map (homeTickTask model elapsed tasks)

/-- The `metrics` record set at the end of the scenario-driven `simulate`
loop. -/
structure Metrics where
  totalTime : Nat
  efficiency : Int
  memoryOverhead : String
deriving DecidableEq, Repr

/-- JavaScript `Math.round` on a (finite, non-negative) rational:
round half away from zero is floor of `x + 1/2`. -/
def jsRound (x : ℚ) : Int := ⌊x + 1 / 2⌋

/-- The `idealTime` reduction of the metrics block:
`scenario.tasks.reduce((sum, t) => Math.max(sum, t.duration), 0)`. -/
def idealTime (durations : List Nat) : Nat :=
  durations.foldl Nat.max 0

/-- The metrics computed when the scenario-driven `simulate` loop stops:
`totalTime` is the elapsed time at the final tick, `efficiency` is
`Math.min(Math.round(idealTime / totalDuration * 100), 100)`, and
`memoryOverhead` is a static lookup on the model.  The source divides
JavaScript numbers; the division is exact over `ℚ` here, so the model is
faithful whenever `elapsed` is nonzero (at `elapsed = 0` JavaScript would
produce `Infinity` or `NaN` instead). -/
def computeMetrics (model : ConcurrencyModel) (durations : List Nat)
    (elapsed : Nat) : Metrics :=
  { totalTime := elapsed
    efficiency := min (jsRound ((idealTime durations : ℚ) / (elapsed : ℚ) * 100)) 100
    memoryOverhead :=
      match model with
      | .goroutines => "Low (2KB/task)"
      | .threads => "High (1MB/thread)"
      | _ => "Minimal" }

/-- The scenario-driven `simulate` loop, driven by the list of elapsed
times at which the animation-frame callback fires.  Each callback first
processes the tick, then decides: it schedules another frame iff not
every snapshot task was completed and `elapsed < 30000`; otherwise it
stops and computes the metrics.  The result pairs the final store state
with the published metrics (`none` models a run whose frame supply was
exhausted while the loop still wanted to continue). -/
def homeRun (model : ConcurrencyModel) (durations : List Nat) :
    List Nat → List SimTask → List SimTask × Option Metrics
  | [], tasks => (tasks, none)
  | elapsed :: rest, tasks =>
      if !(tasks.all fun t => decide (t.status = .completed)) && decide (elapsed < 30000) then
        homeRun model durations rest (homeTick model elapsed tasks)
      else
        (homeTick model elapsed tasks, some (computeMetrics model durations elapsed))

/-- The effect of one tick of the legacy `simulate` loop
(`ConcurrencyLab.tsx`) on a single task.  That loop closes over the
`tasks` array captured when the run started and never re-reads the store,
so every tick reads the same frozen snapshot; only the `updateTask`
writes reach the store.  For a task that is running in the snapshot the
callback issues up to two writes in order - `completed` when due, then
`blocked` whenever the mode is `event-loop` and the duration exceeds
2000 - so the net store effect is `blocked` whenever that second write
fires. -/
def clRunningOnLane (snapshot : List SimTask) (task : SimTask) : Bool :=
  snapshot.any fun t => decide (t.lane = task.lane) && t.status.isRunning

def clTickTask (mode : ConcurrencyMode) (elapsed : Nat)
    (snapshot : List SimTask) (task : SimTask) : SimTask :=
  match task.status with
  | .queued =>
      if !clRunningOnLane snapshot task || decide (mode = .goroutines) then
        { task with status := .running, startTime := some elapsed }
      else task
  | .running =>
      match task.startTime with
      | some st =>
          if decide (mode = ConcurrencyMode.eventLoop) && decide (task.duration > 2000) then
            { task with status := .blocked }
          else if taskDue elapsed st task.duration then
            { task with status := .completed }
          else task
      | none => task
  | _ => task

/-- The store state after one tick of the legacy `simulate` loop: because
the callback reads only the frozen start-of-run snapshot, the store is
rebuilt from that snapshot on every tick, whatever the previous store
state was. -/
def clTick (mode : ConcurrencyMode) (elapsed : Nat) (snapshot : List SimTask) :
    List SimTask :=
  snapshot.map (clTickTask mode elapsed snapshot)

/-- The continue test of the legacy loop,
`tasks.some(t => t.status !== 'completed')`, also evaluated on the frozen
snapshot. -/
def clContinue (snapshot : List SimTask) : Bool :=
  snapshot.any fun t => !(decide (t.status = TaskStatus.completed))

/-- The legacy `simulate` loop over a supply of elapsed times: each
callback rebuilds the store from the frozen snapshot, then schedules the
next frame iff `clContinue` holds of the snapshot.  It returns the trace
of store states after each executed tick, paired with whether the loop
was still scheduled to continue when the supply ran out.  No ceiling on
`elapsed` is consulted and no metrics are computed anywhere in this
loop. -/
def clLoop (mode : ConcurrencyMode) (snapshot : List SimTask) :
    List Nat → List (List SimTask) × Bool
  | [] => ([], clContinue snapshot)
  | elapsed :: rest =>
      if clContinue snapshot then
        (clTick mode elapsed snapshot :: (clLoop mode snapshot rest).1,
          (clLoop mode snapshot rest).2)
      else ([clTick mode elapsed snapshot], false)

/-- The `nextMemoryStep` mutation of `useLabStore.ts`:
`currentMemoryStep + 1`, with no clamping of any kind. -/
def nextMemoryStep (currentMemoryStep : Int) : Int :=
  currentMemoryStep + 1

/-- The `prevMemoryStep` mutation of `useLabStore.ts`:
`Math.max(0, currentMemoryStep - 1)`. -/
def prevMemoryStep (currentMemoryStep : Int) : Int :=
  max 0 (currentMemoryStep - 1)

/-- The advance operation as every caller in the user interface invokes
it: the stepper button is rendered with
`disabled={currentStep >= totalSteps - 1}` (`CodeStepperPanel.tsx`) and
the autoplay timer checks `currentMemoryStep < steps.length - 1`
(`MemoryLab.tsx`), so `nextMemoryStep` fires only while the index is
strictly below the last step index. -/
def guardedNextStep (totalSteps : Nat) (currentStep : Int) : Int :=
  if currentStep < (totalSteps : Int) - 1 then nextMemoryStep currentStep else currentStep

/-- The navigation operations on the step index exposed by the store and
reachable from the user interface while a scenario is selected. -/
inductive NavOp where
  | advance
  | retreat
  | selectScenario
  | reset
deriving DecidableEq, Repr

/-- The effect of one navigation operation on `currentMemoryStep`:
`advance` is the guarded `nextMemoryStep` invocation, `retreat` is
`prevMemoryStep`, and `setMemoryScenario` / `resetMemoryScenario` both
reset the index to 0. -/
def applyNav (totalSteps : Nat) (currentStep : Int) : NavOp → Int
  | .advance => guardedNextStep totalSteps currentStep
  | .retreat => prevMemoryStep currentStep
  | .selectScenario => 0
  | .reset => 0

/-- A block whose `refCount` is defined is strictly positive.  Working
sets built by the reconstruction only ever contain such blocks. -/
def RcPos (b : MemoryBlock) : Prop :=
  ∀ rc, b.refCount = some rc → 0 < rc

/-- The address was derived deterministically from some step index
`i ≤ t`: it is the synthetic heap or stack address of the allocation step
at index `i`. -/
def AddrFromIndex (steps : List MemoryStep) (t : Nat) (addr : String) : Prop :=
  ∃ i st, i ≤ t ∧ steps.get? i = some st ∧
    ((st.action = .allocateHeap ∧ addr = heapAddr i) ∨
     (st.action = .allocateStack ∧ addr = stackAddr i))

/-- A step explicitly targets the block id `bid` with one of the actions
that can remove a block from the working set or re-label its status:
`free` (unconditional removal), `remove-reference` (removal when the
count reaches zero), or `gc-mark` (re-labels the status as `garbage`,
exposing the block to a later sweep). -/
def targetsBlock (step : MemoryStep) (bid : String) : Prop :=
  jsTruthy step.blockId = some bid ∧
    (step.action = .free ∨ step.action = .removeReference ∨ step.action = .gcMark)

instance (step : MemoryStep) (bid : String) : Decidable (targetsBlock step bid) := by
  unfold targetsBlock
  infer_instance

/-- A task that is `queued` has no `startTime` yet.  This holds of every
task the pages create (`startTime` is omitted at creation) and is
preserved by every tick, since admission writes `running` and a start
time together. -/
def StartTimeOk (t : SimTask) : Prop :=
  t.status = .queued → t.startTime = none

instance (t : SimTask) : Decidable (StartTimeOk t) := by
  unfold StartTimeOk
  infer_instance

/-- The three-step list used to exercise leak-then-free: allocate a heap
block `b1`, mark it leaked, then free it by id. -/
def leakThenFreeSteps : List MemoryStep :=
  [ { lineNumber := 1, action := .allocateHeap, blockId := some "b1", blockSize := some 400 },
    { lineNumber := 2, action := .leak, blockId := some "b1" },
    { lineNumber := 3, action := .free, blockId := some "b1" } ]

/-- The first two requests of the `web-server` scenario of
`data/concurrencyScenarios.ts`, as the page materializes them: both
start `queued` on lane 0 with no start time. -/
def webServerFirstTwo : List SimTask :=
  [ { id := "task-0", name := "GET /api/users", status := .queued, lane := 0, duration := 200 },
    { id := "task-1", name := "GET /api/posts", status := .queued, lane := 0, duration := 150 } ]

/-- The first task of `webServerFirstTwo`. -/
def wsTask0 : SimTask :=
  { id := "task-0", name := "GET /api/users", status := .queued, lane := 0, duration := 200 }

/-- A single queued 500 ms task, the start-of-run snapshot frozen by the
legacy simulation loop. -/
def clStuckTask : SimTask :=
  { id := "task-0", name := "Light Task", status := .queued, lane := 0, duration := 500 }

/-- A list map that fixes every member fixes the list. -/
lemma map_id_of_mem {α : Type} {l : List α} {f : α → α}
    (h : ∀ a ∈ l, f a = a) : l.map f = l := by
  induction l with
  | nil => rfl
  | cons a as ih =>
      simp only [List.map_cons]
      rw [h a (List.mem_cons_self a as), ih fun x hx => h x (List.mem_cons_of_mem a hx)]


/-- One replay step preserves reference-count positivity: allocation
initializes `refCount` to 1 or leaves it undefined, `add-reference` only
increments defined counts, and `remove-reference` filters out every block
whose defined count is not positive. -/
lemma rcPos_applyStep (language : Lang) (i : Nat) (step : MemoryStep)
    (W : List MemoryBlock) (hW : ∀ b ∈ W, RcPos b) :
    ∀ b ∈ applyStep language i step W, RcPos b := by
  intro b hb
  cases hact : step.action <;> simp only [applyStep, hact] at hb
  case allocateHeap =>
    rcases List.mem_append.mp hb with h | h
    · exact hW b h
    · simp only [List.mem_singleton] at h
      subst h
      intro rc hrc
      by_cases hl : language = .python <;> simp [newHeapBlock, hl] at hrc
      omega
  case allocateStack =>
    rcases List.mem_append.mp hb with h | h
    · exact hW b h
    · simp only [List.mem_singleton] at h
      subst h
      intro rc hrc
      simp [newStackBlock] at hrc
  case free =>
    cases hbid : jsTruthy step.blockId <;> simp only [hbid] at hb
    · exact hW b hb
    · exact hW b (List.mem_filter.mp hb).1
  case leak =>
    cases hbid : jsTruthy step.blockId with
    | none => simp only [hbid] at hb; exact hW b hb
    | some bid =>
        simp only [hbid] at hb
        obtain ⟨a, ha, rfl⟩ := List.mem_map.mp hb
        intro rc hrc
        refine hW a ha rc ?_
        by_cases hid : a.id = bid <;> simp [hid] at hrc <;> exact hrc
  case transferOwnership =>
    cases hbid : jsTruthy step.blockId with
    | none => cases htgt : jsTruthy step.targetOwner <;> simp only [hbid, htgt] at hb <;>
        exact hW b hb
    | some bid =>
        cases htgt : jsTruthy step.targetOwner with
        | none => simp only [hbid, htgt] at hb; exact hW b hb
        | some tgt =>
            simp only [hbid, htgt] at hb
            obtain ⟨a, ha, rfl⟩ := List.mem_map.mp hb
            intro rc hrc
            refine hW a ha rc ?_
            by_cases hid : a.id = bid <;> simp [hid] at hrc <;> exact hrc
  case addReference =>
    cases hbid : jsTruthy step.blockId with
    | none => simp only [hbid] at hb; exact hW b hb
    | some bid =>
        simp only [hbid] at hb
        obtain ⟨a, ha, rfl⟩ := List.mem_map.mp hb
        intro rc hrc
        by_cases hid : a.id = bid
        · cases harc : a.refCount with
          | none => simp [hid, harc] at hrc
          | some rc0 =>
              simp [hid, harc] at hrc
              have := hW a ha rc0 harc
              omega
        · simp only [if_neg hid] at hrc
          exact hW a ha rc hrc
  case removeReference =>
    cases hbid : jsTruthy step.blockId <;> simp only [hbid] at hb
    · exact hW b hb
    · have hp := (List.mem_filter.mp hb).2
      intro rc hrc
      simp only [hrc] at hp
      simpa using hp
  case gcMark =>
    cases hbid : jsTruthy step.blockId with
    | none => simp only [hbid] at hb; exact hW b hb
    | some bid =>
        simp only [hbid] at hb
        obtain ⟨a, ha, rfl⟩ := List.mem_map.mp hb
        intro rc hrc
        refine hW a ha rc ?_
        by_cases hid : a.id = bid <;> simp [hid] at hrc <;> exact hrc
  case gcSweep =>
    exact hW b (List.mem_filter.mp hb).1
  case scopeEnter => exact hW b hb
  case scopeExit => exact hW b hb

/-- Any per-block property preserved by every replay step holds of every
block of every reconstructed working set (the fold starts from the empty
set). -/
lemma invariant_reconstruct (language : Lang) (steps : List MemoryStep)
    (P : MemoryBlock → Prop)
    (hstep : ∀ i step W, (∀ b ∈ W, P b) → ∀ b ∈ applyStep language i step W, P b) :
    ∀ t, ∀ b ∈ reconstructState language steps t, P b := by
  intro t
  induction t with
  | zero =>
      intro b hb
      simp only [reconstructState, applyStepAt] at hb
      cases hget : steps.get? 0 <;> simp only [hget] at hb
      · simp at hb
      · exact hstep 0 _ [] (by simp) b hb
  | succ t ih =>
      intro b hb
      simp only [reconstructState, applyStepAt] at hb
      cases hget : steps.get? (t + 1) <;> simp only [hget] at hb
      · exact ih b hb
      · exact hstep (t + 1) _ _ ih b hb

/-- Every block of every reconstructed working set has a positive
reference count whenever that count is defined. -/
lemma rcPos_reconstruct (language : Lang) (steps : List MemoryStep) (t : Nat) :
    ∀ b ∈ reconstructState language steps t, RcPos b :=
  invariant_reconstruct language steps RcPos
    (fun i step W hW => rcPos_applyStep language i step W hW) t

/-- One replay step preserves the invariant that stack blocks carry no
`refCount`: `allocate-stack` never writes one, and the reference-count
actions only modify counts that are already defined. -/
lemma stackRc_applyStep (language : Lang) (i : Nat) (step : MemoryStep)
    (W : List MemoryBlock) (hW : ∀ b ∈ W, b.type = .stack → b.refCount = none) :
    ∀ b ∈ applyStep language i step W, b.type = .stack → b.refCount = none := by
  intro b hb
  cases hact : step.action <;> simp only [applyStep, hact] at hb
  case allocateHeap =>
    rcases List.mem_append.mp hb with h | h
    · exact hW b h
    · simp only [List.mem_singleton] at h
      subst h
      intro ht
      by_cases hl : language = .python <;> simp [newHeapBlock, hl] at ht
  case allocateStack =>
    rcases List.mem_append.mp hb with h | h
    · exact hW b h
    · simp only [List.mem_singleton] at h
      subst h
      intro _
      rfl
  case free =>
    cases hbid : jsTruthy step.blockId <;> simp only [hbid] at hb
    · exact hW b hb
    · exact hW b (List.mem_filter.mp hb).1
  case leak =>
    cases hbid : jsTruthy step.blockId with
    | none => simp only [hbid] at hb; exact hW b hb
    | some bid =>
        simp only [hbid] at hb
        obtain ⟨a, ha, rfl⟩ := List.mem_map.mp hb
        by_cases hid : a.id = bid <;> simp [hid] <;> exact hW a ha
  case transferOwnership =>
    cases hbid : jsTruthy step.blockId with
    | none => cases htgt : jsTruthy step.targetOwner <;> simp only [hbid, htgt] at hb <;>
        exact hW b hb
    | some bid =>
        cases htgt : jsTruthy step.targetOwner with
        | none => simp only [hbid, htgt] at hb; exact hW b hb
        | some tgt =>
            simp only [hbid, htgt] at hb
            obtain ⟨a, ha, rfl⟩ := List.mem_map.mp hb
            by_cases hid : a.id = bid <;> simp [hid] <;> exact hW a ha
  case addReference =>
    cases hbid : jsTruthy step.blockId with
    | none => simp only [hbid] at hb; exact hW b hb
    | some bid =>
        simp only [hbid] at hb
        obtain ⟨a, ha, rfl⟩ := List.mem_map.mp hb
        by_cases hid : a.id = bid
        · cases harc : a.refCount with
          | none => simp [hid, harc]
          | some rc0 =>
              simp only [hid, if_pos rfl, harc]
              intro ht
              have := hW a ha ht
              rw [harc] at this
              cases this
        · simp only [if_neg hid]
          exact hW a ha
  case removeReference =>
    cases hbid : jsTruthy step.blockId with
    | none => simp only [hbid] at hb; exact hW b hb
    | some bid =>
        simp only [hbid] at hb
        obtain ⟨a, ha, rfl⟩ := List.mem_map.mp (List.mem_filter.mp hb).1
        by_cases hid : a.id = bid
        · cases harc : a.refCount with
          | none => simp [hid, harc]
          | some rc0 =>
              simp only [hid, if_pos rfl, harc]
              intro ht
              have := hW a ha ht
              rw [harc] at this
              cases this
        · simp only [if_neg hid]
          exact hW a ha
  case gcMark =>
    cases hbid : jsTruthy step.blockId with
    | none => simp only [hbid] at hb; exact hW b hb
    | some bid =>
        simp only [hbid] at hb
        obtain ⟨a, ha, rfl⟩ := List.mem_map.mp hb
        by_cases hid : a.id = bid <;> simp [hid] <;> exact hW a ha
  case gcSweep =>
    exact hW b (List.mem_filter.mp hb).1
  case scopeEnter => exact hW b hb
  case scopeExit => exact hW b hb

/-- Every address in a post-step working set either survives from the
previous working set or is the synthetic address derived from the current
step index by the matching allocation case. -/
lemma addr_applyStep (language : Lang) (i : Nat) (step : MemoryStep)
    (W : List MemoryBlock) :
    ∀ b ∈ applyStep language i step W,
      (∃ a ∈ W, b.address = a.address) ∨
      (step.action = .allocateHeap ∧ b.address = heapAddr i) ∨
      (step.action = .allocateStack ∧ b.address = stackAddr i) := by
  intro b hb
  cases hact : step.action <;> simp only [applyStep, hact] at hb
  case allocateHeap =>
    rcases List.mem_append.mp hb with h | h
    · exact Or.inl ⟨b, h, rfl⟩
    · simp only [List.mem_singleton] at h
      subst h
      exact Or.inr (Or.inl ⟨rfl, rfl⟩)
  case allocateStack =>
    rcases List.mem_append.mp hb with h | h
    · exact Or.inl ⟨b, h, rfl⟩
    · simp only [List.mem_singleton] at h
      subst h
      exact Or.inr (Or.inr ⟨rfl, rfl⟩)
  case free =>
    cases hbid : jsTruthy step.blockId <;> simp only [hbid] at hb
    · exact Or.inl ⟨b, hb, rfl⟩
    · exact Or.inl ⟨b, (List.mem_filter.mp hb).1, rfl⟩
  case leak =>
    cases hbid : jsTruthy step.blockId with
    | none => simp only [hbid] at hb; exact Or.inl ⟨b, hb, rfl⟩
    | some bid =>
        simp only [hbid] at hb
        obtain ⟨a, ha, rfl⟩ := List.mem_map.mp hb
        refine Or.inl ⟨a, ha, ?_⟩
        by_cases hid : a.id = bid <;> simp [hid]
  case transferOwnership =>
    cases hbid : jsTruthy step.blockId with
    | none => cases htgt : jsTruthy step.targetOwner <;> simp only [hbid, htgt] at hb <;>
        exact Or.inl ⟨b, hb, rfl⟩
    | some bid =>
        cases htgt : jsTruthy step.targetOwner with
        | none => simp only [hbid, htgt] at hb; exact Or.inl ⟨b, hb, rfl⟩
        | some tgt =>
            simp only [hbid, htgt] at hb
            obtain ⟨a, ha, rfl⟩ := List.mem_map.mp hb
            refine Or.inl ⟨a, ha, ?_⟩
            by_cases hid : a.id = bid <;> simp [hid]
  case addReference =>
    cases hbid : jsTruthy step.blockId with
    | none => simp only [hbid] at hb; exact Or.inl ⟨b, hb, rfl⟩
    | some bid =>
        simp only [hbid] at hb
        obtain ⟨a, ha, rfl⟩ := List.mem_map.mp hb
        refine Or.inl ⟨a, ha, ?_⟩
        by_cases hid : a.id = bid <;> cases harc : a.refCount <;> simp [hid, harc]
  case removeReference =>
    cases hbid : jsTruthy step.blockId with
    | none => simp only [hbid] at hb; exact Or.inl ⟨b, hb, rfl⟩
    | some bid =>
        simp only [hbid] at hb
        obtain ⟨a, ha, rfl⟩ := List.mem_map.mp (List.mem_filter.mp hb).1
        refine Or.inl ⟨a, ha, ?_⟩
        by_cases hid : a.id = bid <;> cases harc : a.refCount <;> simp [hid, harc]
  case gcMark =>
    cases hbid : jsTruthy step.blockId with
    | none => simp only [hbid] at hb; exact Or.inl ⟨b, hb, rfl⟩
    | some bid =>
        simp only [hbid] at hb
        obtain ⟨a, ha, rfl⟩ := List.mem_map.mp hb
        refine Or.inl ⟨a, ha, ?_⟩
        by_cases hid : a.id = bid <;> simp [hid]
  case gcSweep =>
    exact Or.inl ⟨b, (List.mem_filter.mp hb).1, rfl⟩
  case scopeEnter => exact Or.inl ⟨b, hb, rfl⟩
  case scopeExit => exact Or.inl ⟨b, hb, rfl⟩


/-- Every block address of a reconstructed working set is derived from
the index of the step that allocated it. -/
lemma addr_reconstruct (language : Lang) (steps : List MemoryStep) :
    ∀ t, ∀ b ∈ reconstructState language steps t, AddrFromIndex steps t b.address := by
  intro t
  induction t with
  | zero =>
      intro b hb
      simp only [reconstructState, applyStepAt] at hb
      cases hget : steps.get? 0 with
      | none => simp only [hget] at hb; simp at hb
      | some st =>
          simp only [hget] at hb
          rcases addr_applyStep language 0 st [] b hb with ⟨a, ha, _⟩ | ⟨h1, h2⟩ | ⟨h1, h2⟩
          · simp at ha
          · exact ⟨0, st, le_refl 0, hget, Or.inl ⟨h1, h2⟩⟩
          · exact ⟨0, st, le_refl 0, hget, Or.inr ⟨h1, h2⟩⟩
  | succ t ih =>
      intro b hb
      simp only [reconstructState, applyStepAt] at hb
      cases hget : steps.get? (t + 1) with
      | none =>
          simp only [hget] at hb
          obtain ⟨i, st, hi, hg, hor⟩ := ih b hb
          exact ⟨i, st, hi.trans (Nat.le_succ t), hg, hor⟩
      | some st =>
          simp only [hget] at hb
          rcases addr_applyStep language (t + 1) st _ b hb with ⟨a, ha, heq⟩ | ⟨h1, h2⟩ | ⟨h1, h2⟩
          · obtain ⟨i, st', hi, hg, hor⟩ := ih a ha
            rw [heq]
            exact ⟨i, st', hi.trans (Nat.le_succ t), hg, hor⟩
          · exact ⟨t + 1, st, le_refl _, hget, Or.inl ⟨h1, h2⟩⟩
          · exact ⟨t + 1, st, le_refl _, hget, Or.inr ⟨h1, h2⟩⟩


/-- A replay step that does not target a leaked block with `free`,
`remove-reference` or `gc-mark` keeps that block in the working set with
status `leaked` (the reference-count positivity invariant rules out the
`remove-reference` filter deleting it as a bystander). -/
lemma leaked_preserved (language : Lang) (i : Nat) (step : MemoryStep)
    (W : List MemoryBlock) (hW : ∀ b ∈ W, RcPos b) (bid : String)
    (hnt : ¬ targetsBlock step bid)
    (h : ∃ b ∈ W, b.id = bid ∧ b.status = .leaked) :
    ∃ b ∈ applyStep language i step W, b.id = bid ∧ b.status = .leaked := by
  obtain ⟨b, hb, hbid, hst⟩ := h
  cases hact : step.action <;> simp only [applyStep, hact]
  case allocateHeap =>
    exact ⟨b, List.mem_append_left _ hb, hbid, hst⟩
  case allocateStack =>
    exact ⟨b, List.mem_append_left _ hb, hbid, hst⟩
  case free =>
    cases hjs : jsTruthy step.blockId with
    | none => exact ⟨b, hb, hbid, hst⟩
    | some bid2 =>
        have hne : bid2 ≠ bid := by
          intro hEq
          exact hnt ⟨by rw [hjs, hEq], Or.inl hact⟩
        refine ⟨b, List.mem_filter.mpr ⟨hb, ?_⟩, hbid, hst⟩
        simp [hbid, hne.symm]
  case leak =>
    cases hjs : jsTruthy step.blockId with
    | none => exact ⟨b, hb, hbid, hst⟩
    | some bid2 =>
        refine ⟨_, List.mem_map.mpr ⟨b, hb, rfl⟩, ?_, ?_⟩
        · show (if b.id = bid2 then ({ b with status := .leaked } : MemoryBlock) else b).id = bid
          split <;> exact hbid
        · show (if b.id = bid2 then ({ b with status := .leaked } : MemoryBlock) else b).status
            = BlockStatus.leaked
          split
          · rfl
          · exact hst
  case transferOwnership =>
    cases hjs : jsTruthy step.blockId with
    | none => cases htgt : jsTruthy step.targetOwner <;> exact ⟨b, hb, hbid, hst⟩
    | some bid2 =>
        cases htgt : jsTruthy step.targetOwner with
        | none => exact ⟨b, hb, hbid, hst⟩
        | some tgt =>
            refine ⟨_, List.mem_map.mpr ⟨b, hb, rfl⟩, ?_, ?_⟩
            · show (if b.id = bid2 then ({ b with owner := some tgt } : MemoryBlock) else b).id = bid
              split <;> exact hbid
            · show (if b.id = bid2 then ({ b with owner := some tgt } : MemoryBlock) else b).status
                = BlockStatus.leaked
              split <;> exact hst
  case addReference =>
    cases hjs : jsTruthy step.blockId with
    | none => exact ⟨b, hb, hbid, hst⟩
    | some bid2 =>
        refine ⟨_, List.mem_map.mpr ⟨b, hb, rfl⟩, ?_, ?_⟩
        · show (if b.id = bid2 then
              match b.refCount with
              | some rc => ({ b with refCount := some (rc + 1) } : MemoryBlock)
              | none => b
            else b).id = bid
          split
          · cases b.refCount <;> exact hbid
          · exact hbid
        · show (if b.id = bid2 then
              match b.refCount with
              | some rc => ({ b with refCount := some (rc + 1) } : MemoryBlock)
              | none => b
            else b).status = BlockStatus.leaked
          split
          · cases b.refCount <;> exact hst
          · exact hst
  case removeReference =>
    cases hjs : jsTruthy step.blockId with
    | none => exact ⟨b, hb, hbid, hst⟩
    | some bid2 =>
        have hne : bid2 ≠ bid := by
          intro hEq
          exact hnt ⟨by rw [hjs, hEq], Or.inr (Or.inl hact)⟩
        refine ⟨b, List.mem_filter.mpr ⟨?_, ?_⟩, hbid, hst⟩
        · refine List.mem_map.mpr ⟨b, hb, ?_⟩
          show (if b.id = bid2 then
              match b.refCount with
              | some rc => ({ b with refCount := some (max 0 (rc - 1)) } : MemoryBlock)
              | none => b
            else b) = b
          rw [if_neg (by rw [hbid]; exact hne.symm)]
        · cases harc : b.refCount with
          | none => simp [harc]
          | some rc => simp [harc, hW b hb rc harc]
  case gcMark =>
    cases hjs : jsTruthy step.blockId with
    | none => exact ⟨b, hb, hbid, hst⟩
    | some bid2 =>
        have hne : bid2 ≠ bid := by
          intro hEq
          exact hnt ⟨by rw [hjs, hEq], Or.inr (Or.inr hact)⟩
        refine ⟨b, ?_, hbid, hst⟩
        refine List.mem_map.mpr ⟨b, hb, ?_⟩
        show (if b.id = bid2 then ({ b with status := .garbage } : MemoryBlock) else b) = b
        rw [if_neg (by rw [hbid]; exact hne.symm)]
  case gcSweep =>
    refine ⟨b, List.mem_filter.mpr ⟨hb, ?_⟩, hbid, hst⟩
    simp [hst]
  case scopeEnter => exact ⟨b, hb, hbid, hst⟩
  case scopeExit => exact ⟨b, hb, hbid, hst⟩

/-- Leak persistence along the replay: if the working set at index `k`
contains a block with id `bid` of status `leaked`, and no step of
indices `k+1 .. t` targets `bid` with `free`, `remove-reference` or
`gc-mark`, then the working set at every index up to `t` still contains
a block with id `bid` of status `leaked`. -/
lemma leaked_persists (language : Lang) (steps : List MemoryStep) (bid : String)
    (k : Nat) :
    ∀ t, k ≤ t →
    (∃ b ∈ reconstructState language steps k, b.id = bid ∧ b.status = .leaked) →
    (∀ j st, k < j → j ≤ t → steps.get? j = some st → ¬ targetsBlock st bid) →
    ∃ b ∈ reconstructState language steps t, b.id = bid ∧ b.status = .leaked := by
  intro t
  induction t with
  | zero =>
      intro hk h _
      have : k = 0 := Nat.le_zero.mp hk
      subst this
      exact h
  | succ t ih =>
      intro hk h hsteps
      rcases Nat.lt_or_ge k (t + 1) with hlt | hge
      · have hk' : k ≤ t := Nat.lt_succ_iff.mp hlt
        have hprev := ih hk' h fun j st hj1 hj2 hget =>
          hsteps j st hj1 (hj2.trans (Nat.le_succ t)) hget
        show ∃ b ∈ applyStepAt language steps (t + 1) (reconstructState language steps t),
          b.id = bid ∧ b.status = .leaked
        unfold applyStepAt
        cases hget : steps.get? (t + 1) with
        | none => exact hprev
        | some st =>
            exact leaked_preserved language (t + 1) st _
              (rcPos_reconstruct language steps t) bid
              (hsteps (t + 1) st hlt (le_refl _) hget) hprev
      · have : k = t + 1 := Nat.le_antisymm hk hge
        subst this
        exact h

/-- The completion test is monotone in elapsed time. -/
lemma taskDue_mono {e1 e2 st dur : Nat} (h : e1 ≤ e2)
    (hd : taskDue e1 st dur = true) : taskDue e2 st dur = true := by
  unfold taskDue at *
  simp only [decide_eq_true_eq] at *
  omega


/-- `Math.round(x)` of a non-negative rational is non-negative. -/
lemma jsRound_nonneg {x : ℚ} (hx : 0 ≤ x) : 0 ≤ jsRound x := by
  unfold jsRound
  rw [Int.le_floor]
  push_cast
  linarith

/-- C1: for a fixed step list, active language and target step index the
Memory State Reconstructor publishes the same working set regardless of
any prior call history (the fold restarts from the empty set on every
call, so any history ending at index `t` publishes exactly
`reconstructState language steps t`), and every block address is derived
deterministically from the index of its allocation step via the fixed
`heapAddr` / `stackAddr` formulas - no randomness is involved. -/
theorem reconstructState_pure_and_addresses_deterministic
    (language : Lang) (steps : List MemoryStep) (t : Nat)
    (hist1 hist2 : List Nat) (prev1 prev2 : List MemoryBlock)
    (hne : steps ≠ []) :
    runHistory language steps (hist1 ++ [t]) prev1 = reconstructState language steps t ∧
    runHistory language steps (hist1 ++ [t]) prev1
      = runHistory language steps (hist2 ++ [t]) prev2 ∧
    ∀ b ∈ reconstructState language steps t, AddrFromIndex steps t b.address := by
  have hF : steps.isEmpty = false := by
    cases steps with
    | nil => exact absurd rfl hne
    | cons a l => rfl
  have key : ∀ (h : List Nat) (p : List MemoryBlock),
      runHistory language steps (h ++ [t]) p = reconstructState language steps t := by
    intro h p
    unfold runHistory
    rw [List.foldl_append]
    simp [reconstructEffect, hF]
  exact ⟨key hist1 prev1, (key hist1 prev1).trans (key hist2 prev2).symm,
    addr_reconstruct language steps t⟩

/-- Witness for C1: on the C++ `safety` scenario, the step history
0, 3, 1, 2 (stepping forward, jumping to the end, back, forward) and the
direct jump to index 2 publish the same blocks, from different previous
states. -/
theorem reconstructState_pure_witness :
    cppSafetySteps ≠ [] ∧
    (runHistory Lang.cpp cppSafetySteps ([0, 3, 1] ++ [2]) []
        = reconstructState Lang.cpp cppSafetySteps 2 ∧
      runHistory Lang.cpp cppSafetySteps ([0, 3, 1] ++ [2]) []
        = runHistory Lang.cpp cppSafetySteps ([] ++ [2])
            [{ id := "junk", address := "0x0", size := 1,
               status := .allocated, type := .heap }] ∧
      ∀ b ∈ reconstructState Lang.cpp cppSafetySteps 2,
        AddrFromIndex cppSafetySteps 2 b.address) :=
  ⟨by decide,
    reconstructState_pure_and_addresses_deterministic Lang.cpp cppSafetySteps 2
      [0, 3, 1] [] []
      [{ id := "junk", address := "0x0", size := 1,
         status := .allocated, type := .heap }]
      (by decide)⟩

/-- Counterexample for C4: leaked is not terminal in the code.  In the
step list `allocate-heap b1; leak b1; free b1` the block is leaked at
index 1, yet reconstructing at index 2 yields the empty working set: the
`free` case filters by id with no regard for the `leaked` status. -/
theorem free_removes_leaked_block :
    (leakThenFreeSteps.get? 1).map MemoryStep.action = some MemAction.leak ∧
    (∃ b ∈ reconstructState Lang.cpp leakThenFreeSteps 1,
        b.id = "b1" ∧ b.status = .leaked) ∧
    reconstructState Lang.cpp leakThenFreeSteps 2 = [] := by decide

/-- C4 (amended): once a replay step marks a block `leaked`, the block
stays in the working set with status `leaked` at every later target
index, provided no later step of the replay explicitly targets its id
with `free`, `remove-reference` or `gc-mark` - the only actions that can
remove or re-label it.  In particular `gc-sweep` never removes a leaked
block and steps aimed at other ids never disturb it.  (Every scenario in
the shipped catalog satisfies the proviso.) -/
theorem leak_permanence_unless_targeted
    (language : Lang) (steps : List MemoryStep) (bid : String) (k t : Nat)
    (hk : k ≤ t)
    (hleak : ∃ b ∈ reconstructState language steps k, b.id = bid ∧ b.status = .leaked)
    (hsafe : ∀ j st, k < j → j ≤ t → steps.get? j = some st → ¬ targetsBlock st bid) :
    ∃ b ∈ reconstructState language steps t, b.id = bid ∧ b.status = .leaked :=
  leaked_persists language steps bid k t hk hleak hsafe

/-- Witness for C4 (amended): in the C++ `safety` scenario the heap block
is leaked at index 2 and the later `free` targets only the stack pointer,
so the leaked block is still present at the final index 3. -/
theorem leak_permanence_witness :
    ∃ b ∈ reconstructState Lang.cpp cppSafetySteps 3,
      b.id = "cpp-leak-heap" ∧ b.status = .leaked :=
  leak_permanence_unless_targeted Lang.cpp cppSafetySteps "cpp-leak-heap" 2 3
    (by decide) (by decide)
    (by
      intro j st hj1 hj2 hget
      have hj : j = 3 := by omega
      subst hj
      have h3 : cppSafetySteps.get? 3
          = some { lineNumber := 6, action := .free, blockId := some "cpp-leak-stack" } := rfl
      rw [h3] at hget
      obtain rfl := Option.some.inj hget
      decide)

/-- C7: in every reconstructed working set a defined `refCount` is
strictly positive - it never renders negative (the decrement is clamped
with `Math.max(0, refCount - 1)`) - and directly after any
`remove-reference` step every surviving block has an undefined or
strictly positive count: a block whose count reached zero or below was
filtered out within the same reconstruction pass. -/
theorem refCount_positive_in_reconstruction :
    (∀ language steps t, ∀ b ∈ reconstructState language steps t,
        ∀ rc, b.refCount = some rc → 0 < rc) ∧
    (∀ language i step W bid, step.action = .removeReference →
        jsTruthy step.blockId = some bid →
        ∀ b ∈ applyStep language i step W, ∀ rc, b.refCount = some rc → 0 < rc) := by
  constructor
  · intro language steps t b hb
    exact rcPos_reconstruct language steps t b hb
  · intro language i step W bid hact hbid b hb rc hrc
    simp only [applyStep, hact, hbid] at hb
    have hp := (List.mem_filter.mp hb).2
    simp only [hrc] at hp
    simpa using hp

/-- Witness for C7: the invariant at a concrete reconstruction, and the
remove-reference clause at a concrete step applied to a working set
holding a block with count 1. -/
theorem refCount_positive_witness :
    (∀ b ∈ reconstructState Lang.python cppSafetySteps 3,
        ∀ rc, b.refCount = some rc → 0 < rc) ∧
    (∀ b ∈ applyStep Lang.python 0
        { lineNumber := 1, action := .removeReference, blockId := some "x" }
        [{ id := "x", address := "0xA", size := 8, status := .allocated,
           type := .heap, refCount := some 1 }],
      ∀ rc, b.refCount = some rc → 0 < rc) :=
  ⟨refCount_positive_in_reconstruction.1 Lang.python cppSafetySteps 3,
    refCount_positive_in_reconstruction.2 Lang.python 0
      { lineNumber := 1, action := .removeReference, blockId := some "x" }
      [{ id := "x", address := "0xA", size := 8, status := .allocated,
         type := .heap, refCount := some 1 }]
      "x" rfl (by decide)⟩

/-- C9: a step whose action references an existing block - every action
except the two allocations, which define a fresh id rather than
reference one, and `gc-sweep`, which never consults a block id - leaves
the working set exactly unchanged when its `blockId` is absent (falsy)
or matches no block of the working set.  The replay is total, so no step
can throw. -/
theorem missing_block_step_noop
    (language : Lang) (steps : List MemoryStep) (t : Nat) (i : Nat) (step : MemoryStep)
    (h1 : step.action ≠ .allocateHeap) (h2 : step.action ≠ .allocateStack)
    (h3 : step.action ≠ .gcSweep)
    (hmiss : ∀ bid, jsTruthy step.blockId = some bid →
        ∀ b ∈ reconstructState language steps t, b.id ≠ bid) :
    applyStep language i step (reconstructState language steps t)
      = reconstructState language steps t := by
  have hW := rcPos_reconstruct language steps t
  cases hact : step.action <;> simp only [applyStep, hact]
  case allocateHeap => exact absurd hact h1
  case allocateStack => exact absurd hact h2
  case gcSweep => exact absurd hact h3
  case free =>
    cases hbid : jsTruthy step.blockId with
    | none => rfl
    | some bid =>
        apply List.filter_eq_self.mpr
        intro b hb
        simp [hmiss bid hbid b hb]
  case leak =>
    cases hbid : jsTruthy step.blockId with
    | none => rfl
    | some bid =>
        apply map_id_of_mem
        intro a ha
        rw [if_neg (hmiss bid hbid a ha)]
  case transferOwnership =>
    cases hbid : jsTruthy step.blockId with
    | none => cases htgt : jsTruthy step.targetOwner <;> rfl
    | some bid =>
        cases htgt : jsTruthy step.targetOwner with
        | none => rfl
        | some tgt =>
            apply map_id_of_mem
            intro a ha
            rw [if_neg (hmiss bid hbid a ha)]
  case addReference =>
    cases hbid : jsTruthy step.blockId with
    | none => rfl
    | some bid =>
        apply map_id_of_mem
        intro a ha
        rw [if_neg (hmiss bid hbid a ha)]
  case removeReference =>
    cases hbid : jsTruthy step.blockId with
    | none => rfl
    | some bid =>
        have hmap : List.map (fun b =>
            if b.id = bid then
              match b.refCount with
              | some rc => ({ b with refCount := some (max 0 (rc - 1)) } : MemoryBlock)
              | none => b
            else b) (reconstructState language steps t)
          = reconstructState language steps t :=
          map_id_of_mem fun a ha => if_neg (hmiss bid hbid a ha)
        have hfil : List.filter (fun b =>
            match b.refCount with
            | none => true
            | some rc => decide (0 < rc)) (reconstructState language steps t)
          = reconstructState language steps t :=
          List.filter_eq_self.mpr fun b hb => by
            cases harc : b.refCount with
            | none => simp [harc]
            | some rc => simp [harc, hW b hb rc harc]
        have hcomp : List.filter (fun b =>
            match b.refCount with
            | none => true
            | some rc => decide (0 < rc))
            (List.map (fun b =>
              if b.id = bid then
                match b.refCount with
                | some rc => ({ b with refCount := some (max 0 (rc - 1)) } : MemoryBlock)
                | none => b
              else b) (reconstructState language steps t))
          = reconstructState language steps t := by
          rw [hmap]
          exact hfil
        exact hcomp
  case gcMark =>
    cases hbid : jsTruthy step.blockId with
    | none => rfl
    | some bid =>
        apply map_id_of_mem
        intro a ha
        rw [if_neg (hmiss bid hbid a ha)]

/-- Witness for C9: a `free` step aimed at an id that was never allocated
leaves the reconstructed working set of the C++ `safety` scenario
unchanged. -/
theorem missing_block_step_noop_witness :
    applyStep Lang.cpp 4
        { lineNumber := 9, action := .free, blockId := some "never-allocated" }
        (reconstructState Lang.cpp cppSafetySteps 3)
      = reconstructState Lang.cpp cppSafetySteps 3 :=
  missing_block_step_noop Lang.cpp cppSafetySteps 3 4
    { lineNumber := 9, action := .free, blockId := some "never-allocated" }
    (by decide) (by decide) (by decide)
    (by
      intro bid hbid b hb
      rw [show jsTruthy (some "never-allocated") = some "never-allocated" from by decide] at hbid
      obtain rfl := Option.some.inj hbid
      revert b
      decide)

/-- C10: an `allocate-heap` step with no `blockSize` creates a block of
size 64 and an `allocate-stack` step with no `blockSize` one of size 32;
the heap block's `refCount` is initialized to 1 exactly when the active
language is `python`, and stack blocks never carry a `refCount` at any
point of any reconstruction, under any language. -/
theorem allocation_defaults_and_refCount_init
    (language : Lang) (i : Nat) (step : MemoryStep) (W : List MemoryBlock)
    (steps : List MemoryStep) (t : Nat) :
    (step.action = .allocateHeap → step.blockSize = none →
        applyStep language i step W = W ++ [newHeapBlock language i step] ∧
        (newHeapBlock language i step).size = 64 ∧
        (newHeapBlock language i step).refCount
          = (if language = .python then some 1 else none)) ∧
    (step.action = .allocateStack → step.blockSize = none →
        applyStep language i step W = W ++ [newStackBlock i step] ∧
        (newStackBlock i step).size = 32 ∧
        (newStackBlock i step).refCount = none) ∧
    (∀ b ∈ reconstructState language steps t, b.type = .stack → b.refCount = none) := by
  refine ⟨?_, ?_, ?_⟩
  · intro hact hbs
    exact ⟨by simp [applyStep, hact], by simp [newHeapBlock, hbs], rfl⟩
  · intro hact hbs
    exact ⟨by simp [applyStep, hact], by simp [newStackBlock, hbs], rfl⟩
  · exact invariant_reconstruct language steps _
      (fun i st W hW => stackRc_applyStep language i st W hW) t

/-- Witness for C10: a sizeless heap allocation under Python and a
sizeless stack allocation under C++, over the C++ `safety` scenario
reconstruction. -/
theorem allocation_defaults_witness :
    (applyStep Lang.python 0 { lineNumber := 1, action := .allocateHeap } []
        = [] ++ [newHeapBlock Lang.python 0 { lineNumber := 1, action := .allocateHeap }] ∧
      (newHeapBlock Lang.python 0 { lineNumber := 1, action := .allocateHeap }).size = 64 ∧
      (newHeapBlock Lang.python 0 { lineNumber := 1, action := .allocateHeap }).refCount
        = (if Lang.python = Lang.python then some 1 else none)) ∧
    (applyStep Lang.cpp 1 { lineNumber := 1, action := .allocateStack } []
        = [] ++ [newStackBlock 1 { lineNumber := 1, action := .allocateStack }] ∧
      (newStackBlock 1 { lineNumber := 1, action := .allocateStack }).size = 32 ∧
      (newStackBlock 1 { lineNumber := 1, action := .allocateStack }).refCount = none) ∧
    (∀ b ∈ reconstructState Lang.cpp cppSafetySteps 3,
      b.type = .stack → b.refCount = none) :=
  ⟨(allocation_defaults_and_refCount_init Lang.python 0
      { lineNumber := 1, action := .allocateHeap } [] cppSafetySteps 3).1 rfl rfl,
    (allocation_defaults_and_refCount_init Lang.cpp 1
      { lineNumber := 1, action := .allocateStack } [] cppSafetySteps 3).2.1 rfl rfl,
    (allocation_defaults_and_refCount_init Lang.cpp 1
      { lineNumber := 1, action := .allocateStack } [] cppSafetySteps 3).2.2⟩

/-- Counterexample for C6: the store mutation `nextMemoryStep` does not
clamp.  On the four-step C++ `safety` scenario (last step index 3),
advancing from index 3 yields index 4, outside `[0, lastStepIndex]`. -/
theorem nextMemoryStep_exceeds_last_index :
    nextMemoryStep ((cppSafetySteps.length : Int) - 1) = (cppSafetySteps.length : Int) ∧
    ¬(nextMemoryStep ((cppSafetySteps.length : Int) - 1)
        ≤ (cppSafetySteps.length : Int) - 1) := by
  decide

/-- C6 (amended): `prevMemoryStep` floors the index at 0, but the store's
`nextMemoryStep` increments without clamping; the `[0, lastStepIndex]`
bound is enforced by the callers, which disable or skip the advance when
the index has reached the last step.  Under those guarded operations any
sequence of navigation operations keeps the index within
`[0, lastStepIndex]`. -/
theorem nav_index_stays_bounded
    (totalSteps : Nat) (ops : List NavOp) (idx : Int)
    (hlen : 0 < totalSteps) (h0 : 0 ≤ idx) (h1 : idx ≤ (totalSteps : Int) - 1) :
    0 ≤ ops.foldl (applyNav totalSteps) idx ∧
    ops.foldl (applyNav totalSteps) idx ≤ (totalSteps : Int) - 1 := by
  induction ops generalizing idx with
  | nil => exact ⟨h0, h1⟩
  | cons op ops ih =>
      simp only [List.foldl_cons]
      refine ih _ ?_ ?_ <;>
        cases op <;>
          simp only [applyNav, guardedNextStep, nextMemoryStep, prevMemoryStep] <;>
          (try split) <;> omega

/-- Witness for C6 (amended): advancing three times, retreating once and
advancing twice more on a four-step scenario starting at index 0 stays
within `[0, 3]`. -/
theorem nav_index_stays_bounded_witness :
    (0 : Nat) < 4 ∧ (0 : Int) ≤ 0 ∧ (0 : Int) ≤ ((4 : Nat) : Int) - 1 ∧
    (0 ≤ [NavOp.advance, .advance, .advance, .retreat, .advance,
        .advance].foldl (applyNav 4) 0 ∧
      [NavOp.advance, .advance, .advance, .retreat, .advance,
        .advance].foldl (applyNav 4) 0 ≤ ((4 : Nat) : Int) - 1) :=
  ⟨by decide, by decide, by decide,
    nav_index_stays_bounded 4
      [NavOp.advance, .advance, .advance, .retreat, .advance, .advance] 0
      (by decide) (by decide) (by decide)⟩

/-- C2 (failing): under the `event-loop` model, admission is checked
against the pre-tick snapshot, so when several tasks are queued and none
is running, one tick admits them all.  From the initial state of the
`web-server` scenario (two queued tasks, none running) the first tick at
16 ms leaves two tasks with status `running` simultaneously - against
the admission comment in the source (`Event loop: only one task at a
time`) and the claimed global mutual exclusion. -/
theorem eventLoop_admits_all_queued_in_one_tick :
    (webServerFirstTwo.countP fun t => t.status.isRunning) = 0 ∧
    ((homeTick ConcurrencyModel.eventLoop 16 webServerFirstTwo).countP
        fun t => t.status.isRunning) = 2 := by
  decide

/-- Counterexample for C3: the legacy loop re-reads only the frozen
start-of-run snapshot, so a task admitted at one tick is re-admitted at
the next with a fresh `startTime`: over the single run with ticks at
100 ms and 200 ms the store publishes `startTime = some 100` and then
`startTime = some 200` for the same task - `startTime` is assigned more
than once during one run. -/
theorem clLoop_reassigns_startTime :
    ((clLoop ConcurrencyMode.eventLoop [clStuckTask] [100, 200]).1.map
        fun s => s.map fun t => t.startTime)
      = [[some 100], [some 200]] := by
  decide

/-- C3 (amended): in the scenario-driven simulator a task's status moves
only forward along `queued → running → completed` in each tick, a
defined `startTime` is never changed, and the once-written discipline is
preserved (a queued task has no `startTime`).  In the legacy simulator
the store is rebuilt from the frozen snapshot each tick, so observed
statuses still never move backward between two ticks at non-decreasing
elapsed times - but `startTime` is reassigned on every tick while a task
stays admitted, so it is not set at most once there. -/
theorem task_lifecycle_monotone
    (model : ConcurrencyModel) (mode : ConcurrencyMode)
    (e e1 e2 : Nat) (ts : List SimTask) (t : SimTask)
    (hmem : t ∈ ts) (hok : StartTimeOk t) (hle : e1 ≤ e2) :
    ((homeTickTask model e ts t).status = t.status ∨
      (t.status = .queued ∧ (homeTickTask model e ts t).status = .running) ∨
      (t.status = .running ∧ (homeTickTask model e ts t).status = .completed)) ∧
    (∀ x, t.startTime = some x → (homeTickTask model e ts t).startTime = some x) ∧
    StartTimeOk (homeTickTask model e ts t) ∧
    ((clTickTask mode e2 ts t).status = (clTickTask mode e1 ts t).status ∨
      ((clTickTask mode e1 ts t).status = .running ∧
        (clTickTask mode e2 ts t).status = .completed)) := by
  refine ⟨?_, ?_, ?_, ?_⟩
  · cases ht : t.status <;>
      simp only [homeTickTask, ht] <;>
      (try (cases hst : t.startTime <;> simp only [])) <;>
      (try split) <;>
      simp [ht]
  · intro x hx
    cases ht : t.status <;>
      simp only [homeTickTask, ht] <;>
      (try (cases hst : t.startTime <;> simp only [])) <;>
      (try split) <;>
      simp_all [StartTimeOk]
  · unfold StartTimeOk
    cases ht : t.status <;>
      simp only [homeTickTask, ht] <;>
      (try (cases hst : t.startTime <;> simp only [])) <;>
      (try split) <;>
      intro hq <;>
      simp_all [StartTimeOk]
  · cases ht : t.status <;> simp only [clTickTask, ht]
    case queued =>
      by_cases hc : (!clRunningOnLane ts t || decide (mode = ConcurrencyMode.goroutines)) = true
      · rw [if_pos hc, if_pos hc]
        exact Or.inl rfl
      · rw [if_neg hc, if_neg hc]
        exact Or.inl rfl
    case running =>
      cases hst : t.startTime with
      | none => exact Or.inl rfl
      | some st =>
          simp only []
          by_cases hbl : (decide (mode = ConcurrencyMode.eventLoop)
              && decide (t.duration > 2000)) = true
          · rw [if_pos hbl, if_pos hbl]
            exact Or.inl rfl
          · rw [if_neg hbl, if_neg hbl]
            by_cases hd1 : taskDue e1 st t.duration = true
            · rw [if_pos hd1, if_pos (taskDue_mono hle hd1)]
              exact Or.inl rfl
            · rw [if_neg hd1]
              by_cases hd2 : taskDue e2 st t.duration = true
              · rw [if_pos hd2]
                exact Or.inr ⟨ht, rfl⟩
              · rw [if_neg hd2]
                exact Or.inl rfl
    case blocked => exact Or.inl trivial
    case completed => exact Or.inl trivial

/-- Witness for C3 (amended): the first `web-server` task, queued with no
start time, inside the two-task snapshot, at tick 16 for the
scenario-driven simulator and ticks 100 and 200 for the legacy one. -/
theorem task_lifecycle_monotone_witness :
    wsTask0 ∈ webServerFirstTwo ∧ StartTimeOk wsTask0 ∧ (100 : Nat) ≤ 200 ∧
    (((homeTickTask ConcurrencyModel.eventLoop 16 webServerFirstTwo wsTask0).status
          = wsTask0.status ∨
        (wsTask0.status = .queued ∧
          (homeTickTask ConcurrencyModel.eventLoop 16 webServerFirstTwo wsTask0).status
            = .running) ∨
        (wsTask0.status = .running ∧
          (homeTickTask ConcurrencyModel.eventLoop 16 webServerFirstTwo wsTask0).status
            = .completed)) ∧
      (∀ x, wsTask0.startTime = some x →
        (homeTickTask ConcurrencyModel.eventLoop 16 webServerFirstTwo wsTask0).startTime
          = some x) ∧
      StartTimeOk (homeTickTask ConcurrencyModel.eventLoop 16 webServerFirstTwo wsTask0) ∧
      ((clTickTask ConcurrencyMode.eventLoop 200 webServerFirstTwo wsTask0).status
          = (clTickTask ConcurrencyMode.eventLoop 100 webServerFirstTwo wsTask0).status ∨
        ((clTickTask ConcurrencyMode.eventLoop 100 webServerFirstTwo wsTask0).status
            = .running ∧
          (clTickTask ConcurrencyMode.eventLoop 200 webServerFirstTwo wsTask0).status
            = .completed))) :=
  ⟨by decide, by decide, by decide,
    task_lifecycle_monotone ConcurrencyModel.eventLoop ConcurrencyMode.eventLoop
      16 100 200 webServerFirstTwo wsTask0 (by decide) (by decide) (by decide)⟩

/-- Counterexample for C5: the legacy simulation loop consults no
wall-clock ceiling and computes no metrics.  With a single queued 500 ms
task in the frozen snapshot, the loop executes ticks at 16 ms, 30000 ms
and 60000 ms - far past the claimed 30-second ceiling - and is still
scheduled to continue, because its continue test reads the frozen
snapshot, whose task never becomes `completed`. -/
theorem clLoop_never_stops_past_ceiling :
    (clLoop ConcurrencyMode.eventLoop [clStuckTask] [16, 30000, 60000]).1.length = 3 ∧
    (clLoop ConcurrencyMode.eventLoop [clStuckTask] [16, 30000, 60000]).2 = true := by
  decide

/-- C5 (amended): the scenario-driven simulation loop terminates.  When
every task of the pre-tick snapshot is already `completed`, the very
next tick stops and publishes the metrics; and on any tick supply that
reaches an elapsed time of at least 30000 ms the loop has stopped by
that tick at the latest, publishing metrics computed from whatever task
state exists.  The legacy lab loop has neither the ceiling nor the
metrics. -/
theorem homeRun_stops_and_reports_metrics
    (model : ConcurrencyModel) (durations : List Nat) (ticks : List Nat)
    (ts : List SimTask) (e : Nat) (rest : List Nat) :
    ((ts.all fun t => decide (t.status = TaskStatus.completed)) = true →
      homeRun model durations (e :: rest) ts
        = (homeTick model e ts, some (computeMetrics model durations e))) ∧
    ((∃ x ∈ ticks, 30000 ≤ x) → (homeRun model durations ticks ts).2.isSome = true) := by
  constructor
  · intro hdone
    simp [homeRun, hdone]
  · intro hcap
    induction ticks generalizing ts with
    | nil =>
        obtain ⟨x, hx, _⟩ := hcap
        simp at hx
    | cons e' rest' ih =>
        simp only [homeRun]
        split
        · rename_i hcond
          obtain ⟨x, hx, hxc⟩ := hcap
          rcases List.mem_cons.mp hx with rfl | hx'
          · have : x < 30000 := by
              have := (Bool.and_eq_true _ _).mp hcond
              simpa using this.2
            omega
          · exact ih _ ⟨x, hx', hxc⟩
        · simp

/-- Witness for C5 (amended): two completed tasks stop the loop on the
next tick with metrics, and a tick supply reaching 45000 ms yields
published metrics. -/
theorem homeRun_stops_witness :
    homeRun ConcurrencyModel.threads [200, 150] (500 :: [600])
        [{ id := "task-0", name := "A", status := .completed, lane := 0, duration := 200 },
         { id := "task-1", name := "B", status := .completed, lane := 1, duration := 150 }]
      = (homeTick ConcurrencyModel.threads 500
          [{ id := "task-0", name := "A", status := .completed, lane := 0, duration := 200 },
           { id := "task-1", name := "B", status := .completed, lane := 1, duration := 150 }],
        some (computeMetrics ConcurrencyModel.threads [200, 150] 500)) ∧
    (homeRun ConcurrencyModel.threads [200, 150] [16, 45000]
        [{ id := "task-0", name := "A", status := .queued, lane := 0, duration := 200 },
         { id := "task-1", name := "B", status := .queued, lane := 1,
           duration := 150 }]).2.isSome = true :=
  ⟨(homeRun_stops_and_reports_metrics ConcurrencyModel.threads [200, 150] [16, 45000]
      [{ id := "task-0", name := "A", status := .completed, lane := 0, duration := 200 },
       { id := "task-1", name := "B", status := .completed, lane := 1, duration := 150 }]
      500 [600]).1 (by decide),
    (homeRun_stops_and_reports_metrics ConcurrencyModel.threads [200, 150] [16, 45000]
      [{ id := "task-0", name := "A", status := .queued, lane := 0, duration := 200 },
       { id := "task-1", name := "B", status := .queued, lane := 1, duration := 150 }]
      500 [600]).2 ⟨45000, by decide, by decide⟩⟩

/-- C8: the efficiency published when the scenario-driven loop stops is
`min(100, round(maxTaskDuration / totalTime * 100))`, where
`maxTaskDuration` is the `Math.max` reduction of the scenario durations
and `totalTime` the elapsed time at termination; it always lies in
`[0, 100]`.  (The hypothesis `0 < elapsed` matches every real run - at
`elapsed = 0` JavaScript arithmetic would produce `Infinity`/`NaN`
rather than a rational.) -/
theorem efficiency_formula_and_bounds
    (model : ConcurrencyModel) (durations : List Nat) (elapsed : Nat)
    (hpos : 0 < elapsed) :
    (computeMetrics model durations elapsed).efficiency
        = min 100 (jsRound ((idealTime durations : ℚ) / (elapsed : ℚ) * 100)) ∧
    0 ≤ (computeMetrics model durations elapsed).efficiency ∧
    (computeMetrics model durations elapsed).efficiency ≤ 100 := by
  have hx : (0 : ℚ) ≤ (idealTime durations : ℚ) / (elapsed : ℚ) * 100 := by positivity
  refine ⟨min_comm _ _, ?_, ?_⟩
  · exact le_min (jsRound_nonneg hx) (by norm_num)
  · exact min_le_right _ _

/-- Witness for C8: the spec example - tasks of 200, 150 and 2000 ms
serialized over 2350 ms. -/
theorem efficiency_formula_witness :
    (0 : Nat) < 2350 ∧
    ((computeMetrics ConcurrencyModel.eventLoop [200, 150, 2000] 2350).efficiency
        = min 100 (jsRound ((idealTime [200, 150, 2000] : ℚ) / ((2350 : Nat) : ℚ) * 100)) ∧
      0 ≤ (computeMetrics ConcurrencyModel.eventLoop [200, 150, 2000] 2350).efficiency ∧
      (computeMetrics ConcurrencyModel.eventLoop [200, 150, 2000] 2350).efficiency ≤ 100) :=
  ⟨by decide,
    efficiency_formula_and_bounds ConcurrencyModel.eventLoop [200, 150, 2000] 2350
      (by decide)⟩
